import Mathlib

/-!
Verification of the em-dash substitution core of the obsidian-em-dasher
plugin (src/main.ts).  Lines are modelled as lists of characters; the
JavaScript string operations used by the source (charAt, substring, trim,
startsWith, indexOf, includes, split) are embedded below, and the three
functions of the source (handleEditorChange, isInsideCodeBlock,
isInsideUrl) are translated clause by clause.
-/

namespace EmDasher

/-- A JavaScript string, modelled as a list of characters. -/
abbrev JStr := List Char

/-- JS s.charAt(i): the character at index i, or nothing when out of range
(JS returns the empty string there, which compares unequal to any
one-character string). -/
def jsCharAt (s : JStr) (i : Nat) : Option Char := s.get? i

/-- JS s.substring(a, b): clamps and swaps its arguments. -/
def jsSubstring (s : JStr) (a b : Nat) : JStr :=
  (s.take (max a b)).drop (min a b)

/-- The ASCII whitespace characters relevant to JS trim and the \s class
(the source's lines never contain the exotic Unicode space characters). -/
def isJsSpace (c : Char) : Bool :=
  c = ' ' || c = '\t' || c = '\n' || c = '\r' || c = '\x0b' || c = '\x0c'

/-- JS s.trim(): strip whitespace from both ends. -/
def jsTrim (s : JStr) : JStr :=
  ((s.dropWhile isJsSpace).reverse.dropWhile isJsSpace).reverse

/-- The backtick character (code point 96). -/
def backtickChar : Char := Char.ofNat 96

/-- The three-backtick fence marker. -/
def fenceMarker : JStr := [backtickChar, backtickChar, backtickChar]

/-- JS s.indexOf(pat): index of the first occurrence, -1 when absent. -/
def jsIndexOf (s pat : JStr) : Int :=
  match (List.range (s.length + 1)).find? (fun i => pat.isPrefixOf (s.drop i)) with
  | some i => (i : Int)
  | none => -1

/-- JS s.includes(pat): whether pat occurs in s. -/
def jsIncludes (s pat : JStr) : Bool :=
  (List.range (s.length + 1)).any (fun i => pat.isPrefixOf (s.drop i))

/-- line.trim().startsWith(fence-marker): the source's test for a fenced
code-block delimiter line. -/
def fenceLine (s : JStr) : Bool := fenceMarker.isPrefixOf (jsTrim s)

/-- A character of the splitting class [\s()\x5b\x5d] used on the text after
the dashes. -/
def isSplitDelim (c : Char) : Bool :=
  isJsSpace c || c = '(' || c = ')' || c = '[' || c = ']'

/-! ### The URL regular expression

The source tests candidate strings against
/((?:https?|ftp):\/\/(?:[\w\-]+\.)+[\w\-]+(?:[\w\-\.,@?^=%&:/~\+#]*[\w\-\@?^=%&/~\+#])?)/i
with JS backtracking semantics: ordered alternation, greedy star, leftmost
match.  A small backtracking engine embeds this. -/

/-- Regular expressions: empty word, single-character class, concatenation,
ordered alternation, greedy Kleene star. -/
inductive RE where
  | eps : RE
  | cls : (Char → Bool) → RE
  | cat : RE → RE → RE
  | alt : RE → RE → RE
  | star : RE → RE

/-- Number of nodes of a regular expression, used to bound the backtracking
depth. -/
def reSize : RE → Nat
  | RE.eps => 1
  | RE.cls _ => 1
  | RE.cat a b => reSize a + reSize b + 1
  | RE.alt a b => reSize a + reSize b + 1
  | RE.star a => reSize a + 1

/-- Fuel-bounded backtracking matcher in continuation-passing style.
Alternatives are tried in order and the star is greedy, as in JS.  The
continuation receives the rest of the input after the part matched so far;
the result is the rest of the input after a successful whole match. -/
def reMatchF : Nat → RE → JStr → (JStr → Option JStr) → Option JStr
  | 0, _, _, _ => none
  | _ + 1, RE.eps, s, k => k s
  | _ + 1, RE.cls _, [], _ => none
  | _ + 1, RE.cls p, c :: rest, k => if p c then k rest else none
  | n + 1, RE.cat a b, s, k => reMatchF n a s (fun t => reMatchF n b t k)
  | n + 1, RE.alt a b, s, k =>
      match reMatchF n a s k with
      | some r => some r
      | none => reMatchF n b s k
  | n + 1, RE.star a, s, k =>
      match reMatchF n a s (fun t => reMatchF n (RE.star a) t k) with
      | some r => some r
      | none => k s

/-- One or more repetitions (greedy). -/
def rePlus (a : RE) : RE := RE.cat a (RE.star a)

/-- Zero or one occurrence; the occurrence is preferred, as in JS. -/
def reOpt (a : RE) : RE := RE.alt a RE.eps

/-- A literal character, matched case-insensitively (the source regex has
the i flag). -/
def reChar (c : Char) : RE := RE.cls (fun x => x.toLower = c)

/-- A literal word, each character case-insensitive. -/
def reWord (w : JStr) : RE := w.foldr (fun c r => RE.cat (reChar c) r) RE.eps

/-- The \w class: ASCII letters, digits and underscore. -/
def isWordChar (c : Char) : Bool :=
  (('a' ≤ c && c ≤ 'z') || ('A' ≤ c && c ≤ 'Z') || ('0' ≤ c && c ≤ '9') || c = '_')

/-- The class [\w\-] used for host labels. -/
def isHostChar (c : Char) : Bool := isWordChar c || c = '-'

/-- The class [\w\-\.,@?^=%&:/~\+#]: the interior characters of the
path/query/fragment tail. -/
def isTailInnerChar (c : Char) : Bool :=
  isWordChar c || c = '-' || c = '.' || c = ',' || c = '@' || c = '?' ||
  c = '^' || c = '=' || c = '%' || c = '&' || c = ':' || c = '/' ||
  c = '~' || c = '+' || c = '#'

/-- The class [\w\-\@?^=%&/~\+#]: the last character of the tail. -/
def isTailLastChar (c : Char) : Bool :=
  isWordChar c || c = '-' || c = '@' || c = '?' || c = '^' || c = '=' ||
  c = '%' || c = '&' || c = '/' || c = '~' || c = '+' || c = '#'

/-- (?:https?|ftp): the scheme alternatives in JS order, so that the
optional s of https is tried first. -/
def reScheme : RE :=
  RE.alt (RE.cat (reWord (("http").toList)) (reOpt (reChar 's')))
    (reWord (("ftp").toList))

/-- The URL pattern of the source:
scheme, ://, (?:[\w\-]+\.)+[\w\-]+, optional tail. -/
def urlRE : RE :=
  RE.cat reScheme
    (RE.cat (reWord ((":" ++ "//").toList))
      (RE.cat (RE.cat (rePlus (RE.cat (rePlus (RE.cls isHostChar)) (reChar '.')))
          (rePlus (RE.cls isHostChar)))
        (reOpt (RE.cat (RE.star (RE.cls isTailInnerChar)) (RE.cls isTailLastChar)))))

/-- Fuel sufficient for the backtracking search on a given input. -/
def reFuel (r : RE) (s : JStr) : Nat := (reSize r + 2) * (s.length + 2)

/-- The match of r starting exactly at the head of s (greedy, backtracking),
returned as the matched prefix. -/
def reMatchHere (r : RE) (s : JStr) : Option JStr :=
  match reMatchF (reFuel r s) r s some with
  | some rest => some (s.take (s.length - rest.length))
  | none => none

/-- JS s.match(pattern): the leftmost match, as (start index, matched
substring). -/
def jsRegexMatch (s : JStr) : Option (Nat × JStr) :=
  (List.range (s.length + 1)).findSome? fun i =>
    match reMatchHere urlRE (s.drop i) with
    | some m => some (i, m)
    | none => none

/-! ### The editor model -/

/-- An editor position: line index and character column. -/
structure Pos where
  line : Nat
  ch : Nat
deriving DecidableEq, Repr

/-- A CodeMirror 5 token: start and end columns on its line, its text, and
its (possibly null) type string. -/
structure CM5Token where
  start : Nat
  stop : Nat
  string : JStr
  type : Option JStr

/-- The buffer-access capability consumed from the host: the lines of the
document and, optionally, the CM5 getTokenAt query. -/
structure Editor where
  lines : List JStr
  tokenAt : Option (Pos → Option CM5Token)

/-- editor.getLine(i); out-of-range reads yield the empty string. -/
def getLine (ed : Editor) (i : Nat) : JStr := ed.lines.getD i []

/-! ### isInsideCodeBlock (src/main.ts lines 85-190)

The source function is a sequence of checks, each of which either returns
true or falls through to the next; it is embedded as the disjunction of the
four checks, in source order. -/

/-- The body of the fenced-block loop (lines 91-133) at loop index i: true
exactly when the source's `return true` at line 128 is reached for this i. -/
def fencedCheckAt (ed : Editor) (pos : Pos) (i : Nat) : Bool :=
  if fenceLine (getLine ed i) then
    -- lines 95-101: parity of fence lines strictly above line i
    let inBlock0 := (List.range i).foldl
      (fun b j => if fenceLine (getLine ed j) then !b else b) false
    -- lines 103-104: toggle again for line i itself
    let inBlock := if fenceLine (getLine ed i) then !inBlock0 else inBlock0
    if inBlock then
      -- lines 108-119
      let blockStillOpen := (List.range' (i + 1) (pos.line - i)).foldl
        (fun b k =>
          if fenceLine (getLine ed k) then
            decide (k = pos.line ∧
              jsIndexOf (getLine ed k) fenceMarker > (pos.ch : Int))
          else b) true
      if blockStillOpen && decide (i ≤ pos.line) then
        -- lines 121-129
        if pos.line = i ∧ (pos.ch : Int) ≤ jsIndexOf (getLine ed i) fenceMarker + 2 then
          false
        else true
      else false
    else false
  else false

/-- The fenced-block loop, over lines max(0, line-10) .. line. -/
def fencedWindowCheck (ed : Editor) (pos : Pos) : Bool :=
  (List.range' (pos.line - 10) (pos.line + 1 - (pos.line - 10))).any
    (fencedCheckAt ed pos)

/-- Lines 135-146: the probe line itself opens a fence and the probe sits
after the marker; count the fence lines up to the probe line and report
inside when that count is odd. -/
def trailingFenceCheck (ed : Editor) (pos : Pos) : Bool :=
  if fenceLine (getLine ed pos.line) &&
      decide ((pos.ch : Int) > jsIndexOf (getLine ed pos.line) fenceMarker) then
    let openFences := (List.range (pos.line + 1)).foldl
      (fun n l => if fenceLine (getLine ed l) then n + 1 else n) 0
    decide (openFences % 2 ≠ 0)
  else false

/-- Lines 149-167: the CM5 token query.  True exactly when the source's
`return true` at line 164 is reached: the capability exists, the token at
the probe has a type containing both code and inline, and the token starts
at or before the first dash (probe column minus one, computed as in JS over
the integers). -/
def cm5TokenCheck (ed : Editor) (pos : Pos) : Bool :=
  match ed.tokenAt with
  | none => false
  | some getTok =>
    match getTok pos with
    | none => false
    | some tok =>
      match tok.type with
      | none => false
      | some ty =>
        if jsIncludes ty (("code").toList) && jsIncludes ty (("inline").toList) then
          decide ((tok.start : Int) ≤ (pos.ch : Int) - 1)
        else false

/-- Lines 168-187: the backtick-counting fallback.  Count backticks at
columns strictly below pos.ch - 1 (the first dash); when odd, report inside
if a backtick occurs in substring(pos.ch + 1). -/
def backtickFallback (ed : Editor) (pos : Pos) : Bool :=
  let currentLine := getLine ed pos.line
  let backtickCount := (currentLine.take (pos.ch - 1)).countP (fun c => c = backtickChar)
  if backtickCount % 2 ≠ 0 then
    jsIncludes (currentLine.drop (pos.ch + 1)) [backtickChar]
  else false

/-- isInsideCodeBlock (lines 85-190): pos is the position of the second
dash of the candidate pair. -/
def isInsideCodeBlock (ed : Editor) (pos : Pos) : Bool :=
  fencedWindowCheck ed pos || trailingFenceCheck ed pos ||
  cm5TokenCheck ed pos || backtickFallback ed pos

/-! ### isInsideUrl (src/main.ts lines 192-240) -/

/-- Line 198-201: the candidate URL tested against the pattern.  pos is the
position immediately before the two dashes; substring(pos.ch) therefore
starts at the first dash, and its first split segment is appended after the
manually inserted pair of hyphens. -/
def fullPotentialUrl (textBeforeDash : JStr) (ed : Editor) (pos : Pos) : JStr :=
  let currentLine := getLine ed pos.line
  let textAfterDash := currentLine.drop pos.ch
  textBeforeDash ++ ['-', '-'] ++ textAfterDash.takeWhile (fun c => !isSplitDelim c)

/-- isInsideUrl (lines 192-240).  When the leftmost pattern match on the
candidate contains a double hyphen, is found again in the current line, and
the probe column lies inside the found span, the source returns true on
every path of its inner branch (lines 216-235 end in `return true`
unconditionally); every other path returns false. -/
def isInsideUrl (textBeforeDash : JStr) (ed : Editor) (pos : Pos) : Bool :=
  let currentLine := getLine ed pos.line
  match jsRegexMatch (fullPotentialUrl textBeforeDash ed pos) with
  | none => false
  | some m =>
    if jsIncludes m.2 ['-', '-'] then
      let urlStartIndex := jsIndexOf currentLine m.2
      if urlStartIndex = -1 then false
      else
        let urlEndIndex := urlStartIndex + (m.2.length : Int)
        if (pos.ch : Int) > urlStartIndex && (pos.ch : Int) ≤ urlEndIndex then
          true
        else false
    else false

/-! ### handleEditorChange (src/main.ts lines 32-83) -/

/-- The single editor.replaceRange call the handler can issue: replace
columns [fromCh, toCh) of the given line by text. -/
structure Replacement where
  line : Nat
  fromCh : Nat
  toCh : Nat
  text : JStr
deriving DecidableEq, Repr

/-- handleEditorChange (lines 32-83), returning the replaceRange request it
issues, if any. -/
def handleEditorChange (ed : Editor) (cursorPos : Pos) : Option Replacement :=
  let line := getLine ed cursorPos.line
  if cursorPos.ch < 3 then none
  else
    let charJustTyped := jsCharAt line (cursorPos.ch - 1)
    let twoCharsBefore := jsSubstring line (cursorPos.ch - 3) (cursorPos.ch - 1)
    if charJustTyped = some ' ' then
      if twoCharsBefore = ['-', '-'] then
        -- line 49: charBeforePairIndex = cursorPos.ch - 4, over the integers
        if (cursorPos.ch : Int) - 4 < 0 ∨ jsCharAt line (cursorPos.ch - 4) ≠ some '-' then
          let contextCheckPos : Pos := ⟨cursorPos.line, cursorPos.ch - 1⟩
          let textContextBeforeDash := jsSubstring line 0 (cursorPos.ch - 3)
          let contextPosBeforeDash : Pos := ⟨cursorPos.line, cursorPos.ch - 3⟩
          if !isInsideCodeBlock ed contextCheckPos &&
              !isInsideUrl textContextBeforeDash ed contextPosBeforeDash then
            some ⟨cursorPos.line, cursorPos.ch - 3, cursorPos.ch - 1, ['—']⟩
          else none
        else none
      else none
    else none

/-- editor.replaceRange for a single-line range: splice the replacement
text over columns [fromCh, toCh) of the addressed line. -/
def applyReplacement (lines : List JStr) (r : Replacement) : List JStr :=
  let l := lines.getD r.line []
  lines.set r.line (l.take r.fromCh ++ r.text ++ l.drop r.toCh)

/-! ### Helper lemmas -/

theorem list_any_congr {α : Type} {l : List α} {f g : α → Bool}
    (h : ∀ x ∈ l, f x = g x) : l.any f = l.any g := by
  induction l with
  | nil => rfl
  | cons a t ih =>
    simp only [List.any_cons]
    rw [h a (by simp), ih (fun x hx => h x (by simp [hx]))]

theorem list_foldl_congr {α β : Type} {l : List α} {f g : β → α → β} {b : β}
    (h : ∀ x ∈ l, ∀ c, f c x = g c x) : l.foldl f b = l.foldl g b := by
  induction l generalizing b with
  | nil => rfl
  | cons a t ih =>
    simp only [List.foldl_cons]
    rw [h a (by simp), ih (fun x hx => h x (by simp [hx]))]

theorem list_foldl_fixed {α β : Type} {l : List α} {f : β → α → β} {b : β}
    (h : ∀ x ∈ l, ∀ c, f c x = c) : l.foldl f b = b := by
  induction l generalizing b with
  | nil => rfl
  | cons a t ih =>
    simp only [List.foldl_cons]
    rw [h a (by simp), ih (fun x hx => h x (by simp [hx]))]

/-- A toggling fold computes the parity of the count. -/
theorem foldl_toggle {α : Type} (g : α → Bool) (l : List α) (b : Bool) :
    l.foldl (fun acc j => if g j then !acc else acc) b =
      (if l.countP g % 2 = 1 then !b else b) := by
  induction l generalizing b with
  | nil => simp
  | cons a t ih =>
    simp only [List.foldl_cons, List.countP_cons]
    cases hg : g a with
    | true =>
      simp only [hg, if_true, ih]
      by_cases hp : t.countP g % 2 = 1
      · have hq : (t.countP g + 1) % 2 ≠ 1 := by omega
        simp [hp, hq]
      · have hq : (t.countP g + 1) % 2 = 1 := by omega
        simp [hp, hq]
    | false =>
      simp only [hg, Bool.false_eq_true, if_false, ih, Nat.add_zero]

theorem jsSubstring_of_le (s : JStr) {a b : Nat} (h : a ≤ b) :
    jsSubstring s a b = (s.drop a).take (b - a) := by
  unfold jsSubstring
  have hb : a + (b - a) = b := by omega
  rw [Nat.max_eq_right h, Nat.min_eq_left h, List.take_drop, hb]

theorem take_two_cons {α : Type} {l : List α} {x y : α} (h : l.take 2 = [x, y]) :
    l = x :: y :: l.drop 2 := by
  cases l with
  | nil => simp at h
  | cons a t =>
    cases t with
    | nil => simp at h
    | cons b u =>
      have h' : a = x ∧ b = y := by simpa using h
      obtain ⟨hx, hy⟩ := h'
      subst hx
      subst hy
      rfl

/-- Under a firing trigger, the cursor line around the two dashes reads
dash, dash, then the rest from the triggering space on. -/
theorem dashes_shape {line : JStr} {ch : Nat} (hch : 3 ≤ ch)
    (h : jsSubstring line (ch - 3) (ch - 1) = ['-', '-']) :
    line.drop (ch - 3) = '-' :: '-' :: line.drop (ch - 1) := by
  rw [jsSubstring_of_le line (by omega : ch - 3 ≤ ch - 1)] at h
  have h2 : (ch - 1) - (ch - 3) = 2 := by omega
  rw [h2] at h
  have h3 := take_two_cons h
  rw [List.drop_drop] at h3
  have h4 : ch - 3 + 2 = ch - 1 := by omega
  rwa [h4] at h3

/-- The space just typed splits the line at the cursor column. -/
theorem space_shape {line : JStr} {ch : Nat} (hch : 1 ≤ ch)
    (h : jsCharAt line (ch - 1) = some ' ') :
    line.drop (ch - 1) = ' ' :: line.drop ch := by
  unfold jsCharAt at h
  rw [List.get?_eq_getElem?] at h
  obtain ⟨hlt, he⟩ := List.getElem?_eq_some_iff.mp h
  have h5 := List.drop_eq_getElem_cons (n := ch - 1) (l := line) hlt
  rw [he] at h5
  have h6 : ch - 1 + 1 = ch := by omega
  rwa [h6] at h5

/-- The full trigger shape: if the handler's space and double-dash
conditions hold, the line decomposes around the match. -/
theorem trigger_shape {line : JStr} {ch : Nat} (hch : 3 ≤ ch)
    (hd : jsSubstring line (ch - 3) (ch - 1) = ['-', '-'])
    (hs : jsCharAt line (ch - 1) = some ' ') :
    line.drop (ch - 3) = '-' :: '-' :: ' ' :: line.drop ch := by
  rw [dashes_shape hch hd, space_shape (by omega) hs]

/-- The unfolding of handleEditorChange: it issues a replacement exactly
when every guard of the source passes, and the replacement is the fixed
em-dash splice over the two dashes. -/
theorem handleEditorChange_eq_some_iff (ed : Editor) (p : Pos) (r : Replacement) :
    handleEditorChange ed p = some r ↔
      3 ≤ p.ch ∧
      jsCharAt (getLine ed p.line) (p.ch - 1) = some ' ' ∧
      jsSubstring (getLine ed p.line) (p.ch - 3) (p.ch - 1) = ['-', '-'] ∧
      ((p.ch : Int) - 4 < 0 ∨ jsCharAt (getLine ed p.line) (p.ch - 4) ≠ some '-') ∧
      isInsideCodeBlock ed ⟨p.line, p.ch - 1⟩ = false ∧
      isInsideUrl (jsSubstring (getLine ed p.line) 0 (p.ch - 3)) ed ⟨p.line, p.ch - 3⟩ = false ∧
      r = ⟨p.line, p.ch - 3, p.ch - 1, ['—']⟩ := by
  simp only [handleEditorChange]
  by_cases h1 : p.ch < 3
  · rw [if_pos h1]
    simp only [reduceCtorEq, false_iff]
    omega
  rw [if_neg h1]
  by_cases h2 : jsCharAt (getLine ed p.line) (p.ch - 1) = some ' '
  case neg =>
    rw [if_neg h2]
    simp only [reduceCtorEq, false_iff]
    rintro ⟨-, hs, -⟩
    exact h2 hs
  rw [if_pos h2]
  by_cases h3 : jsSubstring (getLine ed p.line) (p.ch - 3) (p.ch - 1) = ['-', '-']
  case neg =>
    rw [if_neg h3]
    simp only [reduceCtorEq, false_iff]
    rintro ⟨-, -, hd, -⟩
    exact h3 hd
  rw [if_pos h3]
  by_cases h4 : (p.ch : Int) - 4 < 0 ∨ jsCharAt (getLine ed p.line) (p.ch - 4) ≠ some '-'
  case neg =>
    rw [if_neg h4]
    simp only [reduceCtorEq, false_iff]
    rintro ⟨-, -, -, hex, -⟩
    exact h4 hex
  rw [if_pos h4]
  by_cases h5 : (!isInsideCodeBlock ed ⟨p.line, p.ch - 1⟩ &&
      !isInsideUrl (jsSubstring (getLine ed p.line) 0 (p.ch - 3)) ed ⟨p.line, p.ch - 3⟩) = true
  · rw [if_pos h5]
    rw [Bool.and_eq_true, Bool.not_eq_true', Bool.not_eq_true'] at h5
    simp only [Option.some.injEq]
    constructor
    · intro hr
      exact ⟨by omega, h2, h3, h4, h5.1, h5.2, hr.symm⟩
    · rintro ⟨-, -, -, -, -, -, hr⟩
      exact hr.symm
  · rw [if_neg h5]
    rw [Bool.and_eq_true, Bool.not_eq_true', Bool.not_eq_true'] at h5
    simp only [reduceCtorEq, false_iff]
    rintro ⟨-, -, -, -, hcb, hurl, -⟩
    exact h5 ⟨hcb, hurl⟩

/-! ### Concrete editors used by witnesses and counterexamples -/

/-- A plain line, "well-- ", no code or URL context. -/
def edWell : Editor := ⟨[("well-- ").toList], none⟩

/-- A horizontal-rule-like line "a--- ". -/
def edTriple : Editor := ⟨[("a--- ").toList], none⟩

/-- A line already converted to an em dash. -/
def edConverted : Editor := ⟨[("it was—fine ").toList], none⟩

/-! ### Claim theorems -/

/-- Claim C4: handleEditorChange performs a substitution only if the cursor
column is at least 3, the character at column cursorColumn-1 is a space,
and the two characters in [cursorColumn-3, cursorColumn-1) are exactly the
double hyphen; when cursorColumn < 3 the handler returns with no action. -/
theorem handleEditorChange_trigger_conditions (ed : Editor) (p : Pos) :
    ((handleEditorChange ed p).isSome →
      3 ≤ p.ch ∧
      jsCharAt (getLine ed p.line) (p.ch - 1) = some ' ' ∧
      jsSubstring (getLine ed p.line) (p.ch - 3) (p.ch - 1) = ['-', '-']) ∧
    (p.ch < 3 → handleEditorChange ed p = none) := by
  constructor
  · intro hs
    obtain ⟨r, hr⟩ := Option.isSome_iff_exists.mp hs
    obtain ⟨ha, hb, hc, -⟩ := (handleEditorChange_eq_some_iff ed p r).mp hr
    exact ⟨ha, hb, hc⟩
  · intro h3
    cases hr : handleEditorChange ed p with
    | none => rfl
    | some r =>
      obtain ⟨ha, -⟩ := (handleEditorChange_eq_some_iff ed p r).mp hr
      omega

/-- Witness for C4 at the line "well-- ", cursor (0, 7), where the trigger
fires. -/
theorem handleEditorChange_trigger_conditions_witness :
    3 ≤ (7 : Nat) ∧
    jsCharAt (getLine edWell 0) 6 = some ' ' ∧
    jsSubstring (getLine edWell 0) 4 6 = ['-', '-'] :=
  (handleEditorChange_trigger_conditions edWell ⟨0, 7⟩).1 (by decide)

/-- Claim C5: whenever a character exists at column cursorColumn-4 and it
is a hyphen (the candidate pair is the tail of a run of three or more
hyphens), no substitution occurs. -/
theorem triple_hyphen_no_substitution (ed : Editor) (p : Pos)
    (h4 : 4 ≤ p.ch)
    (hh : jsCharAt (getLine ed p.line) (p.ch - 4) = some '-') :
    handleEditorChange ed p = none := by
  cases hr : handleEditorChange ed p with
  | none => rfl
  | some r =>
    obtain ⟨-, -, -, hex, -⟩ := (handleEditorChange_eq_some_iff ed p r).mp hr
    rcases hex with hlt | hne
    · omega
    · exact absurd hh hne

/-- Witness for C5 at the line "a--- ", cursor (0, 5). -/
theorem triple_hyphen_no_substitution_witness :
    4 ≤ (5 : Nat) ∧
    jsCharAt (getLine edTriple 0) 1 = some '-' ∧
    handleEditorChange edTriple ⟨0, 5⟩ = none :=
  ⟨by decide, by decide,
    triple_hyphen_no_substitution edTriple ⟨0, 5⟩ (by decide) (by decide)⟩

/-- Claim C9: on a line containing no two consecutive hyphens (for example
a line already converted to an em dash), the handler never matches, at
every cursor position. -/
theorem no_double_hyphen_no_match (ed : Editor) (p : Pos)
    (h : jsIncludes (getLine ed p.line) ['-', '-'] = false) :
    handleEditorChange ed p = none := by
  cases hr : handleEditorChange ed p with
  | none => rfl
  | some r =>
    obtain ⟨hch, -, hd, -⟩ := (handleEditorChange_eq_some_iff ed p r).mp hr
    have hshape := dashes_shape hch hd
    have hlen : p.ch - 3 < (getLine ed p.line).length := by
      by_contra hle
      push_neg at hle
      have hnil : (getLine ed p.line).drop (p.ch - 3) = [] :=
        List.drop_eq_nil_iff.mpr hle
      rw [hshape] at hnil
      exact List.noConfusion hnil
    have htrue : jsIncludes (getLine ed p.line) ['-', '-'] = true := by
      unfold jsIncludes
      rw [List.any_eq_true]
      refine ⟨p.ch - 3, ?_, ?_⟩
      · rw [List.mem_range]
        omega
      · rw [hshape]
        simp [List.isPrefixOf]
    rw [h] at htrue
    exact Bool.noConfusion htrue

/-- Witness for C9 at the already-converted line, cursor (0, 8). -/
theorem no_double_hyphen_no_match_witness :
    jsIncludes (getLine edConverted 0) ['-', '-'] = false ∧
    handleEditorChange edConverted ⟨0, 8⟩ = none :=
  ⟨by decide, no_double_hyphen_no_match edConverted ⟨0, 8⟩ (by decide)⟩

/-- Claim C6: on every invocation the buffer is either untouched or
modified by exactly one range replacement, substituting the two-character
span [cursorColumn-3, cursorColumn-1) of the cursor line by one em dash;
all other lines, the other characters of the line, and the triggering
space (the head of the text kept after the span) are unchanged. -/
theorem handleEditorChange_frame (ed : Editor) (p : Pos) (r : Replacement)
    (hr : handleEditorChange ed p = some r) :
    r = ⟨p.line, p.ch - 3, p.ch - 1, ['—']⟩ ∧
    (∀ j, j ≠ p.line →
      (applyReplacement ed.lines r).getD j [] = ed.lines.getD j []) ∧
    (applyReplacement ed.lines r).getD p.line [] =
      (getLine ed p.line).take (p.ch - 3) ++ ['—'] ++ (getLine ed p.line).drop (p.ch - 1) ∧
    (getLine ed p.line).drop (p.ch - 1) = ' ' :: (getLine ed p.line).drop p.ch := by
  obtain ⟨hch, hsp, -, -, -, -, hreq⟩ := (handleEditorChange_eq_some_iff ed p r).mp hr
  subst hreq
  refine ⟨rfl, ?_, ?_, space_shape (by omega) hsp⟩
  · intro j hj
    simp only [applyReplacement]
    rw [List.getD_eq_getElem?_getD, List.getElem?_set_ne (Ne.symm hj),
      List.getD_eq_getElem?_getD]
  · have hlt : p.ch - 1 < (getLine ed p.line).length := by
      unfold jsCharAt at hsp
      rw [List.get?_eq_getElem?] at hsp
      exact (List.getElem?_eq_some_iff.mp hsp).1
    have hne : getLine ed p.line ≠ [] := by
      intro h0
      rw [h0] at hlt
      simp at hlt
    have hlines : p.line < ed.lines.length := by
      by_contra hge
      push_neg at hge
      have h0 : getLine ed p.line = [] := by
        unfold getLine
        rw [List.getD_eq_getElem?_getD, List.getElem?_eq_none hge]
        rfl
      exact hne h0
    simp only [applyReplacement, getLine]
    rw [List.getD_eq_getElem?_getD, List.getElem?_set_self hlines]
    rfl

/-- Witness for C6 at the line "well-- ", cursor (0, 7). -/
theorem handleEditorChange_frame_witness :
    handleEditorChange edWell ⟨0, 7⟩ = some ⟨0, 4, 6, ['—']⟩ ∧
    (applyReplacement edWell.lines ⟨0, 4, 6, ['—']⟩).getD 0 [] =
      (getLine edWell 0).take 4 ++ ['—'] ++ (getLine edWell 0).drop 6 ∧
    (applyReplacement edWell.lines ⟨0, 4, 6, ['—']⟩).getD 1 [] =
      edWell.lines.getD 1 [] := by
  have hr : handleEditorChange edWell ⟨0, 7⟩ = some ⟨0, 4, 6, ['—']⟩ := by decide
  have h := handleEditorChange_frame edWell ⟨0, 7⟩ ⟨0, 4, 6, ['—']⟩ hr
  exact ⟨hr, h.2.2.1, h.2.1 1 (by decide)⟩

/-! ### Congruence of every component in the lines at or above the probe
line (used by claim C10) -/

theorem fencedCheckAt_congr (ed1 ed2 : Editor) (pos : Pos)
    (hg : ∀ i ≤ pos.line, getLine ed1 i = getLine ed2 i)
    (i : Nat) (hi : i ≤ pos.line) :
    fencedCheckAt ed1 pos i = fencedCheckAt ed2 pos i := by
  have h1 : getLine ed1 i = getLine ed2 i := hg i hi
  have h2 : (List.range i).foldl
      (fun b j => if fenceLine (getLine ed1 j) then !b else b) false =
      (List.range i).foldl
      (fun b j => if fenceLine (getLine ed2 j) then !b else b) false := by
    refine list_foldl_congr fun j hj c => ?_
    rw [hg j (le_of_lt (lt_of_lt_of_le (List.mem_range.mp hj) hi))]
  have h3 : (List.range' (i + 1) (pos.line - i)).foldl
      (fun b k => if fenceLine (getLine ed1 k) then
        decide (k = pos.line ∧
          jsIndexOf (getLine ed1 k) fenceMarker > (pos.ch : Int))
        else b) true =
      (List.range' (i + 1) (pos.line - i)).foldl
      (fun b k => if fenceLine (getLine ed2 k) then
        decide (k = pos.line ∧
          jsIndexOf (getLine ed2 k) fenceMarker > (pos.ch : Int))
        else b) true := by
    refine list_foldl_congr fun k hk c => ?_
    have hkle : k ≤ pos.line := by
      have := List.mem_range'_1.mp hk
      omega
    rw [hg k hkle]
  simp only [fencedCheckAt]
  rw [h1, h2, h3]

theorem fencedWindowCheck_congr (ed1 ed2 : Editor) (pos : Pos)
    (hg : ∀ i ≤ pos.line, getLine ed1 i = getLine ed2 i) :
    fencedWindowCheck ed1 pos = fencedWindowCheck ed2 pos := by
  simp only [fencedWindowCheck]
  refine list_any_congr fun i hi => ?_
  have hile : i ≤ pos.line := by
    have := List.mem_range'_1.mp hi
    omega
  exact fencedCheckAt_congr ed1 ed2 pos hg i hile

theorem trailingFenceCheck_congr (ed1 ed2 : Editor) (pos : Pos)
    (hg : ∀ i ≤ pos.line, getLine ed1 i = getLine ed2 i) :
    trailingFenceCheck ed1 pos = trailingFenceCheck ed2 pos := by
  have h1 : getLine ed1 pos.line = getLine ed2 pos.line := hg pos.line le_rfl
  have h2 : (List.range (pos.line + 1)).foldl
      (fun n l => if fenceLine (getLine ed1 l) then n + 1 else n) 0 =
      (List.range (pos.line + 1)).foldl
      (fun n l => if fenceLine (getLine ed2 l) then n + 1 else n) 0 := by
    refine list_foldl_congr fun l hl c => ?_
    have : l ≤ pos.line := by
      have := List.mem_range.mp hl
      omega
    rw [hg l this]
  simp only [trailingFenceCheck]
  rw [h1, h2]

theorem backtickFallback_congr (ed1 ed2 : Editor) (pos : Pos)
    (hg : ∀ i ≤ pos.line, getLine ed1 i = getLine ed2 i) :
    backtickFallback ed1 pos = backtickFallback ed2 pos := by
  simp only [backtickFallback]
  rw [hg pos.line le_rfl]

theorem cm5TokenCheck_congr (ed1 ed2 : Editor) (pos : Pos)
    (ht : ed1.tokenAt = ed2.tokenAt) :
    cm5TokenCheck ed1 pos = cm5TokenCheck ed2 pos := by
  simp only [cm5TokenCheck]
  rw [ht]

theorem isInsideCodeBlock_congr (ed1 ed2 : Editor) (pos : Pos)
    (ht : ed1.tokenAt = ed2.tokenAt)
    (hg : ∀ i ≤ pos.line, getLine ed1 i = getLine ed2 i) :
    isInsideCodeBlock ed1 pos = isInsideCodeBlock ed2 pos := by
  simp only [isInsideCodeBlock]
  rw [fencedWindowCheck_congr ed1 ed2 pos hg, trailingFenceCheck_congr ed1 ed2 pos hg,
    cm5TokenCheck_congr ed1 ed2 pos ht, backtickFallback_congr ed1 ed2 pos hg]

theorem isInsideUrl_congr (ed1 ed2 : Editor) (pos : Pos) (t : JStr)
    (hg : ∀ i ≤ pos.line, getLine ed1 i = getLine ed2 i) :
    isInsideUrl t ed1 pos = isInsideUrl t ed2 pos := by
  simp only [isInsideUrl, fullPotentialUrl]
  rw [hg pos.line le_rfl]

/-- Claim C10: the handler's outcome depends only on the cursor and the
lines at or above the cursor line (with the host token capability held
fixed); lines below the cursor line never influence the decision. -/
theorem handleEditorChange_depends_only_above (ed1 ed2 : Editor) (p : Pos)
    (ht : ed1.tokenAt = ed2.tokenAt)
    (hg : ∀ i ≤ p.line, getLine ed1 i = getLine ed2 i) :
    handleEditorChange ed1 p = handleEditorChange ed2 p := by
  simp only [handleEditorChange]
  rw [hg p.line le_rfl,
    isInsideCodeBlock_congr ed1 ed2 ⟨p.line, p.ch - 1⟩ ht hg,
    isInsideUrl_congr ed1 ed2 ⟨p.line, p.ch - 3⟩ _ hg]

/-- A buffer sharing the cursor line with edWell but with different lines
below it. -/
def edBelow : Editor :=
  ⟨[("well-- ").toList, ("other content").toList, ("```" ++ "x").toList], none⟩

/-- Witness for C10: edWell and edBelow agree on line 0 only; the handler
acts identically at a cursor on line 0. -/
theorem handleEditorChange_depends_only_above_witness :
    handleEditorChange edWell ⟨0, 7⟩ = handleEditorChange edBelow ⟨0, 7⟩ :=
  handleEditorChange_depends_only_above edWell edBelow ⟨0, 7⟩ rfl
    (fun i hi => by
      have h0 : i = 0 := Nat.le_zero.mp hi
      subst h0
      rfl)

/-- A line with an inline code span containing the dashes. -/
def edInline : Editor := ⟨[("x ` a-- ` y").toList], none⟩

/-- Claim C7: without the structured-token capability, when the number of
backticks strictly before the probe column (the second dash) is odd and a
backtick also appears after the probe column on the same line, the probe
is classified as inside inline code and typing the dashes-plus-space does
not substitute. -/
theorem inline_backtick_fallback (ed : Editor) (p : Pos)
    (hcm : ed.tokenAt = none)
    (hch : 3 ≤ p.ch)
    (hsp : jsCharAt (getLine ed p.line) (p.ch - 1) = some ' ')
    (hd : jsSubstring (getLine ed p.line) (p.ch - 3) (p.ch - 1) = ['-', '-'])
    (hodd : ((getLine ed p.line).take (p.ch - 1)).countP
      (fun c => c = backtickChar) % 2 = 1)
    (hclose : jsIncludes ((getLine ed p.line).drop p.ch) [backtickChar] = true) :
    isInsideCodeBlock ed ⟨p.line, p.ch - 1⟩ = true ∧
    handleEditorChange ed p = none := by
  have hshape := dashes_shape hch hd
  have hget : (getLine ed p.line)[p.ch - 2]? = some '-' := by
    have h1 : ((getLine ed p.line).drop (p.ch - 3))[1]? = some '-' := by
      rw [hshape]
      simp
    rw [List.getElem?_drop] at h1
    have h2 : p.ch - 3 + 1 = p.ch - 2 := by omega
    rwa [h2] at h1
  have hcount : ((getLine ed p.line).take (p.ch - 2)).countP
      (fun c => c = backtickChar) % 2 = 1 := by
    have h2 : p.ch - 1 = (p.ch - 2) + 1 := by omega
    rw [h2, List.take_succ, hget] at hodd
    have h3 : ¬ (('-' : Char) = backtickChar) := by decide
    simpa [h3] using hodd
  have hbt : backtickFallback ed ⟨p.line, p.ch - 1⟩ = true := by
    simp only [backtickFallback]
    have h3 : p.ch - 1 - 1 = p.ch - 2 := by omega
    have h4 : p.ch - 1 + 1 = p.ch := by omega
    rw [h3, h4, if_pos (by omega)]
    exact hclose
  have hcode : isInsideCodeBlock ed ⟨p.line, p.ch - 1⟩ = true := by
    simp [isInsideCodeBlock, hbt]
  refine ⟨hcode, ?_⟩
  cases hr : handleEditorChange ed p with
  | none => rfl
  | some r =>
    obtain ⟨-, -, -, -, hcb, -⟩ := (handleEditorChange_eq_some_iff ed p r).mp hr
    rw [hcode] at hcb
    exact Bool.noConfusion hcb

/-- Witness for C7 at the inline-code line, cursor (0, 8): the dashes sit
between backticks and nothing is substituted. -/
theorem inline_backtick_fallback_witness :
    isInsideCodeBlock edInline ⟨0, 7⟩ = true ∧
    handleEditorChange edInline ⟨0, 8⟩ = none :=
  inline_backtick_fallback edInline ⟨0, 8⟩ rfl (by decide) (by decide) (by decide)
    (by decide) (by decide)

/-- Claim C8: the token-based check classifies the match as inside inline
code only if the structured-token capability is present, the token at the
probe (second dash) has a type containing both the code and inline
markers, and the token starts at or before the first dash (column
probe - 1), not merely at the probe. -/
theorem cm5_token_covers_both_dashes (ed : Editor) (p : Pos)
    (h : cm5TokenCheck ed p = true) :
    ∃ getTok tok ty,
      ed.tokenAt = some getTok ∧ getTok p = some tok ∧ tok.type = some ty ∧
      jsIncludes ty (("code").toList) = true ∧
      jsIncludes ty (("inline").toList) = true ∧
      (tok.start : Int) ≤ (p.ch : Int) - 1 := by
  cases hta : ed.tokenAt with
  | none =>
    simp only [cm5TokenCheck, hta] at h
    exact Bool.noConfusion h
  | some getTok =>
    simp only [cm5TokenCheck, hta] at h
    cases htok : getTok p with
    | none =>
      simp only [htok] at h
      exact Bool.noConfusion h
    | some tok =>
      simp only [htok] at h
      cases hty : tok.type with
      | none =>
        simp only [hty] at h
        exact Bool.noConfusion h
      | some ty =>
        simp only [hty] at h
        by_cases hin : (jsIncludes ty (("code").toList) &&
            jsIncludes ty (("inline").toList)) = true
        · rw [if_pos hin] at h
          rw [Bool.and_eq_true] at hin
          exact ⟨getTok, tok, ty, rfl, htok, hty, hin.1, hin.2, of_decide_eq_true h⟩
        · rw [if_neg hin] at h
          exact Bool.noConfusion h

/-- An editor exposing the structured-token capability, with an
inline-code token spanning columns [1, 5) of line 0. -/
def edToken : Editor :=
  ⟨[(("`a-- ` x").toList), []],
    some (fun p => if p = ⟨0, 3⟩ then
      some ⟨1, 5, ("a--").toList, some (("inline-code").toList)⟩ else none)⟩

/-- Witness for C8 at the token editor, probe (0, 3). -/
theorem cm5_token_covers_both_dashes_witness :
    ∃ getTok tok ty,
      edToken.tokenAt = some getTok ∧ getTok ⟨0, 3⟩ = some tok ∧ tok.type = some ty ∧
      jsIncludes ty (("code").toList) = true ∧
      jsIncludes ty (("inline").toList) = true ∧
      (tok.start : Int) ≤ ((3 : Nat) : Int) - 1 :=
  cm5_token_covers_both_dashes edToken ⟨0, 3⟩ (by decide)

/-! ### Claim C2: fenced code blocks -/

/-- A buffer whose fenced block opens on line 0, more than 10 lines above
the cursor line 12, and closes on line 13. -/
def edBeyond : Editor :=
  ⟨[fenceMarker] ++ List.replicate 11 (("a").toList) ++
    [("x-- ").toList, fenceMarker], none⟩

/-- Counterexample to claim C2 as stated: line 12 of edBeyond lies
strictly between the opening fence (line 0, beyond the 10-line lookback
window) and the closing fence (line 13), yet isInsideCodeBlock reports
false at the probe and typing the dashes-plus-space substitutes. -/
theorem fenced_beyond_window_counterexample :
    fenceLine (getLine edBeyond 0) = true ∧
    fenceLine (getLine edBeyond 13) = true ∧
    (List.range' 1 12).all (fun k => !fenceLine (getLine edBeyond k)) = true ∧
    isInsideCodeBlock edBeyond ⟨12, 3⟩ = false ∧
    handleEditorChange edBeyond ⟨12, 4⟩ = some ⟨12, 1, 3, ['—']⟩ := by
  refine ⟨by decide, by decide, by decide, by decide, ?_⟩
  decide

/-- Claim C2 (amended): when the opening fence line additionally lies
within the 10-line lookback window above the cursor line, an open fenced
block makes isInsideCodeBlock true at every probe column of the cursor
line and the handler never substitutes there. -/
theorem fenced_block_within_window (ed : Editor) (L i : Nat)
    (hwin : L ≤ i + 10)
    (hlt : i < L)
    (hfence : fenceLine (getLine ed i) = true)
    (hparity : (List.range i).countP (fun j => fenceLine (getLine ed j)) % 2 = 0)
    (hnofence : ∀ k ∈ List.range' (i + 1) (L - i), fenceLine (getLine ed k) = false) :
    (∀ ch : Nat, isInsideCodeBlock ed ⟨L, ch⟩ = true) ∧
    (∀ ch : Nat, handleEditorChange ed ⟨L, ch⟩ = none) := by
  have hcheck : ∀ ch : Nat, fencedCheckAt ed ⟨L, ch⟩ i = true := by
    intro ch
    have h2 : (List.range i).foldl
        (fun b j => if fenceLine (getLine ed j) then !b else b) false = false := by
      rw [foldl_toggle]
      rw [if_neg (by omega)]
    have hdec : decide (i ≤ L) = true := decide_eq_true (Nat.le_of_lt hlt)
    have hne : L ≠ i := Nat.ne_of_gt hlt
    simp only [fencedCheckAt]
    simp [hfence, h2, hdec, hne]
    refine list_foldl_fixed fun k hk c => ?_
    rw [hnofence k hk]
    rfl
  have hwindow : ∀ ch : Nat, fencedWindowCheck ed ⟨L, ch⟩ = true := by
    intro ch
    simp only [fencedWindowCheck]
    rw [List.any_eq_true]
    refine ⟨i, ?_, hcheck ch⟩
    rw [List.mem_range'_1]
    omega
  have hcode : ∀ ch : Nat, isInsideCodeBlock ed ⟨L, ch⟩ = true := by
    intro ch
    simp [isInsideCodeBlock, hwindow ch]
  refine ⟨hcode, ?_⟩
  intro ch
  cases hr : handleEditorChange ed ⟨L, ch⟩ with
  | none => rfl
  | some r =>
    obtain ⟨-, -, -, -, hcb, -⟩ :=
      (handleEditorChange_eq_some_iff ed ⟨L, ch⟩ r).mp hr
    rw [hcode (ch - 1)] at hcb
    exact Bool.noConfusion hcb

/-- A three-line buffer: opening fence, content line with the dashes,
closing fence. -/
def edFence : Editor := ⟨[fenceMarker, ("x-- ").toList, fenceMarker], none⟩

/-- Witness for the amended C2 at edFence, cursor line 1. -/
theorem fenced_block_within_window_witness :
    isInsideCodeBlock edFence ⟨1, 3⟩ = true ∧
    handleEditorChange edFence ⟨1, 4⟩ = none := by
  have h := fenced_block_within_window edFence 1 0 (by omega) (by omega)
    (by decide) (by decide) (by decide)
  exact ⟨h.1 3, h.2 4⟩

/-! ### Claim C3: the candidate URL string -/

/-- A plain two-word line used for the candidate-string counterexample. -/
def edAb : Editor := ⟨[("ab-- ").toList], none⟩

/-- Counterexample to claim C3 as stated: at a firing trigger on the line
"ab-- " the candidate string handed to the URL pattern is "ab----", not
the text before the match followed by exactly one double hyphen. -/
theorem candidate_url_counterexample :
    (handleEditorChange edAb ⟨0, 5⟩).isSome = true ∧
    fullPotentialUrl (("ab").toList) edAb ⟨0, 2⟩ = ("ab----").toList ∧
    fullPotentialUrl (("ab").toList) edAb ⟨0, 2⟩ ≠ ("ab--").toList := by
  refine ⟨?_, by decide, by decide⟩
  decide

/-- Claim C3 (amended): the candidate URL string concatenates the text
before the match, the literal double hyphen, and the first split segment
of the line taken from the match START (not from after the match); under a
firing trigger that segment is the matched double hyphen itself, so the
candidate equals the text before the match followed by four hyphens. -/
theorem fullPotentialUrl_under_trigger (ed : Editor) (p : Pos)
    (hch : 3 ≤ p.ch)
    (hsp : jsCharAt (getLine ed p.line) (p.ch - 1) = some ' ')
    (hd : jsSubstring (getLine ed p.line) (p.ch - 3) (p.ch - 1) = ['-', '-']) :
    fullPotentialUrl (jsSubstring (getLine ed p.line) 0 (p.ch - 3)) ed
        ⟨p.line, p.ch - 3⟩ =
      jsSubstring (getLine ed p.line) 0 (p.ch - 3) ++ ['-', '-', '-', '-'] := by
  have hshape := trigger_shape hch hd hsp
  simp only [fullPotentialUrl]
  rw [hshape]
  have htw : ∀ t : JStr,
      List.takeWhile (fun c => !isSplitDelim c) ('-' :: '-' :: ' ' :: t) =
        ['-', '-'] := by
    intro t
    rfl
  rw [htw]
  simp

/-- Witness for the amended C3 at the line "ab-- ", cursor (0, 5). -/
theorem fullPotentialUrl_under_trigger_witness :
    fullPotentialUrl (jsSubstring (getLine edAb 0) 0 2) edAb ⟨0, 2⟩ =
      jsSubstring (getLine edAb 0) 0 2 ++ ['-', '-', '-', '-'] :=
  fullPotentialUrl_under_trigger edAb ⟨0, 5⟩ (by decide) (by decide) (by decide)

/-! ### Claim C1: URL protection -/

/-- A line that is exactly an absolute URL whose final characters are the
just-typed dashes, followed by the triggering space. -/
def edUrl : Editor := ⟨[("http://a.b/c-- ").toList], none⟩

/-- Claim C1 evidence: the cursor-line prefix "http://a.b/c--" (columns
0 to 13) is a full match of the URL pattern, the typed dashes (columns
12-13) and the probe (column 12) lie inside its span, yet isInsideUrl
returns false and the handler substitutes inside the URL.  The cause: the
candidate built by the source duplicates the dashes ("http://a.b/c----"),
so the matched string is never found again in the line by indexOf. -/
theorem url_protection_dead :
    jsRegexMatch (("http://a.b/c--").toList) =
      some (0, ("http://a.b/c--").toList) ∧
    fullPotentialUrl (("http://a.b/c").toList) edUrl ⟨0, 12⟩ =
      ("http://a.b/c----").toList ∧
    jsIndexOf (getLine edUrl 0) (("http://a.b/c----").toList) = -1 ∧
    isInsideUrl (("http://a.b/c").toList) edUrl ⟨0, 12⟩ = false ∧
    handleEditorChange edUrl ⟨0, 15⟩ = some ⟨0, 12, 14, ['—']⟩ := by
  refine ⟨by decide, by decide, by decide, by decide, ?_⟩
  decide

end EmDasher
